import Mathlib

/-!
Verification of the NachOS three-tier CPU scheduler
(code/threads/scheduler.cc).

The scheduler keeps three ready queues:
  L1 — SortedList ordered by SJFCompare (remaining burst time),
  L2 — SortedList ordered by PriorityCompare (raw priority value),
  L3 — plain FIFO list,
a pending-destruction slot (toBeDestroyed) and the kernel reference to the
currently executing thread.  This file embeds those operations as pure
functions on explicit state and proves the behavioural properties of the
scheduling subsystem.
-/

/-- Thread status, from the data model of the surrounding kernel
(thread.h is outside the scheduler source; the status set is
\x7bREADY, RUNNING, BLOCKED, FINISHED\x7d). -/
inductive ThreadStatus : Type
  | READY
  | RUNNING
  | BLOCKED
  | FINISHED
deriving DecidableEq, Repr

/-- Execution unit as seen by the scheduler: identity, priority value,
cumulative consumed time (getBurstTime), estimated total time
(getApproxBurstTime), status and the start-time marker.  The scheduler
never constructs a unit; it only reads and updates these fields. -/
structure Thread : Type where
  tid : Int
  priority : Int
  burstTime : Int
  approxBurstTime : Int
  status : ThreadStatus
  startTime : Int
deriving DecidableEq, Repr

/-- Remaining work of a unit: estimated total time minus consumed time. -/
def remainingWork (t : Thread) : Int :=
  t.approxBurstTime - t.burstTime

/-- SJFCompare from scheduler.cc: compares the remaining burst time
(getApproxBurstTime() - getBurstTime()) of two threads. -/
def SJFCompare (a b : Thread) : Int :=
  if a.approxBurstTime - a.burstTime = b.approxBurstTime - b.burstTime then 0
  else if a.approxBurstTime - a.burstTime > b.approxBurstTime - b.burstTime then 1
  else -1

/-- PriorityCompare from scheduler.cc: compares raw priority values. -/
def PriorityCompare (a b : Thread) : Int :=
  if a.priority = b.priority then 0
  else if a.priority > b.priority then 1
  else -1

/-- FIFOCompare from scheduler.cc: defined but never applied (L3 is a
plain List). -/
def FIFOCompare (_a _b : Thread) : Int :=
  1

/-- Modelled from the spec: SortedList::Insert of the list library (the
list implementation is outside the scheduler source).  The spec requires
ties in the ordered tiers to be broken by insertion order, the unit
admitted earlier dequeuing first; hence the new item is inserted in front
of the first element that compares strictly greater, i.e. after every
element comparing less than or equal. -/
def sortedInsert {α : Type} (cmp : α → α → Int) (x : α) : List α → List α
  | [] => [x]
  | y :: ys => if cmp x y < 0 then x :: y :: ys else y :: sortedInsert cmp x ys

/-- Scheduler state: the three tiers, the pending-destruction slot and
the kernel reference to the currently executing thread. -/
structure SchedState : Type where
  L1 : List Thread
  L2 : List Thread
  L3 : List Thread
  toBeDestroyed : Option Thread
  currentThread : Thread
deriving DecidableEq, Repr

namespace Scheduler

/-- Scheduler::ReadyToRun.  Sets the status of the admitted thread to
READY, then routes it by priority band: [100,149] to L1 (SJF order),
[50,99] to L2 (priority order), [0,49] to L3 (FIFO append); any other
priority reaches ASSERTNOTREACHED.  A fatal assertion is embedded as
an error value carrying the admitted thread and the tiers as they stand
at the abort point. -/
def ReadyToRun (t : Thread) (s : SchedState) :
    Except (Thread × SchedState) SchedState :=
  let t1 : Thread := { t with status := ThreadStatus.READY }
  let p : Int := t1.priority
  if 100 ≤ p ∧ p ≤ 149 then
    Except.ok { s with L1 := sortedInsert SJFCompare t1 s.L1 }
  else if 50 ≤ p ∧ p ≤ 99 then
    Except.ok { s with L2 := sortedInsert PriorityCompare t1 s.L2 }
  else if 0 ≤ p ∧ p ≤ 49 then
    Except.ok { s with L3 := s.L3 ++ [t1] }
  else
    Except.error (t1, s)

/-- Scheduler::FindNextToRun.  Removes and returns the front of the first
non-empty tier, in the order L1, L2, L3; yields none when all tiers are
empty. -/
def FindNextToRun (s : SchedState) : Option Thread × SchedState :=
  match s.L1 with
  | t :: rest => (some t, { s with L1 := rest })
  | [] =>
    match s.L2 with
    | t :: rest => (some t, { s with L2 := rest })
    | [] =>
      match s.L3 with
      | t :: rest => (some t, { s with L3 := rest })
      | [] => (none, s)

/-- Scheduler::CheckToBeDestroyed: release the staged thread and clear
the slot when it is occupied; otherwise do nothing. -/
def CheckToBeDestroyed (s : SchedState) : SchedState :=
  match s.toBeDestroyed with
  | some _ => { s with toBeDestroyed := none }
  | none => s

/-- The part of Scheduler::Run executed before the SWITCH primitive:
when finishing, assert the pending-destruction slot is empty (a fatal
assertion otherwise, embedded as an error carrying the state at the
abort point) and stage the current thread there; then make nextThread
the current thread, set its status to RUNNING and record its start-time
marker.  The user-state save hooks and the stack-overflow check act on
external collaborators and leave the scheduler state unchanged. -/
def Run_dispatch (s : SchedState) (nextThread : Thread) (finishing : Bool)
    (now : Int) : Except SchedState SchedState :=
  let oldThread : Thread := s.currentThread
  if finishing then
    match s.toBeDestroyed with
    | some _ => Except.error s
    | none =>
      Except.ok { s with
        toBeDestroyed := some oldThread,
        currentThread :=
          { nextThread with status := ThreadStatus.RUNNING, startTime := now } }
  else
    Except.ok { s with
      currentThread :=
        { nextThread with status := ThreadStatus.RUNNING, startTime := now } }

/-- Scheduler::Run in full: the dispatch half, then — once control has
come back through a SWITCH — the destruction check.  The user-state
restore hooks touch only external collaborators. -/
def Run (s : SchedState) (nextThread : Thread) (finishing : Bool)
    (now : Int) : Except SchedState SchedState :=
  (Run_dispatch s nextThread finishing now).map CheckToBeDestroyed

/-- Scheduler::checkPreemptive.  When L1 is non-empty the code removes
the front of L1 and inserts it back (the peek of the source), then
returns true exactly when the approximate burst time of that front is
strictly below the approximate burst time of the current thread. -/
def checkPreemptive (s : SchedState) : Bool × SchedState :=
  match s.L1 with
  | [] => (false, s)
  | first :: rest =>
    let s1 := { s with L1 := sortedInsert SJFCompare first rest }
    if first.approxBurstTime < s.currentThread.approxBurstTime then
      (true, s1)
    else
      (false, s1)

/-- Scheduler::aging.  Drains the three tiers into fresh queues: every
L1 thread is aged and reinserted into the new L1; an L2 thread whose
aged priority reaches 100 is promoted into the new L1, otherwise it is
reinserted into the new L2; an L3 thread whose aged priority reaches 50
is promoted into the new L2, otherwise it is appended to the new L3.
The aging mutation itself belongs to the thread (Thread::aging, outside
the scheduler source) and is passed in as the function age. -/
def aging (age : Thread → Thread) (s : SchedState) : SchedState :=
  let newL1 : List Thread :=
    s.L1.foldl (fun acc t => sortedInsert SJFCompare (age t) acc) []
  let step2 : List Thread × List Thread :=
    s.L2.foldl
      (fun acc t =>
        if 100 ≤ (age t).priority then
          (sortedInsert SJFCompare (age t) acc.1, acc.2)
        else
          (acc.1, sortedInsert PriorityCompare (age t) acc.2))
      (newL1, [])
  let step3 : List Thread × List Thread :=
    s.L3.foldl
      (fun acc t =>
        if 50 ≤ (age t).priority then
          (sortedInsert PriorityCompare (age t) acc.1, acc.2)
        else
          (acc.1, acc.2 ++ [age t]))
      (step2.2, [])
  { s with L1 := step2.1, L2 := step3.1, L3 := step3.2 }

end Scheduler

/-- State carried out of a dispatch, whether it completed or aborted. -/
def exceptState (e : Except SchedState SchedState) : SchedState :=
  match e with
  | Except.ok s => s
  | Except.error s => s

/-! ### Permutation lemmas about the list operations -/

theorem sortedInsert_perm {α : Type} (cmp : α → α → Int) (x : α) :
    ∀ l : List α, (sortedInsert cmp x l).Perm (x :: l)
  | [] => List.Perm.refl _
  | y :: ys => by
    unfold sortedInsert
    by_cases h : cmp x y < 0
    · rw [if_pos h]
    · rw [if_neg h]
      exact ((sortedInsert_perm cmp x ys).cons y).trans (List.Perm.swap x y ys)

theorem mem_sortedInsert {α : Type} (cmp : α → α → Int) (x z : α) (l : List α) :
    z ∈ sortedInsert cmp x l ↔ z = x ∨ z ∈ l := by
  rw [(sortedInsert_perm cmp x l).mem_iff]
  simp

theorem length_sortedInsert {α : Type} (cmp : α → α → Int) (x : α) (l : List α) :
    (sortedInsert cmp x l).length = l.length + 1 := by
  have h := (sortedInsert_perm cmp x l).length_eq
  simpa using h

theorem foldl_sortedInsert_perm {α β : Type} (cmp : α → α → Int) (f : β → α) :
    ∀ (l : List β) (acc : List α),
      (l.foldl (fun a t => sortedInsert cmp (f t) a) acc).Perm (l.map f ++ acc)
  | [], acc => by simp
  | t :: l, acc => by
    simp only [List.foldl_cons, List.map_cons, List.cons_append]
    exact (foldl_sortedInsert_perm cmp f l (sortedInsert cmp (f t) acc)).trans
      (((sortedInsert_perm cmp (f t) acc).append_left (l.map f)).trans
        List.perm_middle)

theorem foldl_route_perm {α β : Type} (g : α → Prop) [DecidablePred g]
    (f : β → α) (ins1 ins2 : α → List α → List α)
    (h1 : ∀ x l, (ins1 x l).Perm (x :: l))
    (h2 : ∀ x l, (ins2 x l).Perm (x :: l)) :
    ∀ (l : List β) (a1 a2 : List α),
      ((l.foldl (fun acc t => if g (f t) then (ins1 (f t) acc.1, acc.2)
          else (acc.1, ins2 (f t) acc.2)) (a1, a2)).1).Perm
        ((l.map f).filter (fun x => decide (g x)) ++ a1)
      ∧ ((l.foldl (fun acc t => if g (f t) then (ins1 (f t) acc.1, acc.2)
          else (acc.1, ins2 (f t) acc.2)) (a1, a2)).2).Perm
        ((l.map f).filter (fun x => ! decide (g x)) ++ a2) := by
  intro l
  induction l with
  | nil =>
    intro a1 a2
    constructor <;> simp
  | cons t l ih =>
    intro a1 a2
    by_cases hg : g (f t)
    · have e1 : (List.map f (t :: l)).filter (fun x => decide (g x)) =
          f t :: (List.map f l).filter (fun x => decide (g x)) := by simp [hg]
      have e2 : (List.map f (t :: l)).filter (fun x => ! decide (g x)) =
          (List.map f l).filter (fun x => ! decide (g x)) := by simp [hg]
      simp only [List.foldl_cons]
      rw [if_pos hg, e1, e2, List.cons_append]
      refine ⟨((ih (ins1 (f t) a1) a2).1).trans ?_, (ih (ins1 (f t) a1) a2).2⟩
      exact (((h1 (f t) a1).append_left _)).trans List.perm_middle
    · have e1 : (List.map f (t :: l)).filter (fun x => decide (g x)) =
          (List.map f l).filter (fun x => decide (g x)) := by simp [hg]
      have e2 : (List.map f (t :: l)).filter (fun x => ! decide (g x)) =
          f t :: (List.map f l).filter (fun x => ! decide (g x)) := by simp [hg]
      simp only [List.foldl_cons]
      rw [if_neg hg, e1, e2, List.cons_append]
      refine ⟨(ih a1 (ins2 (f t) a2)).1, ((ih a1 (ins2 (f t) a2)).2).trans ?_⟩
      exact (((h2 (f t) a2).append_left _)).trans List.perm_middle

/-! ### Characterization of the aging pass, up to permutation -/

theorem aging_L1_perm (age : Thread → Thread) (s : SchedState) :
    ((Scheduler.aging age s).L1).Perm
      ((s.L2.map age).filter (fun x => decide (100 ≤ x.priority)) ++
        s.L1.map age) := by
  have hroute := (foldl_route_perm (fun x : Thread => 100 ≤ x.priority) age
    (sortedInsert SJFCompare) (sortedInsert PriorityCompare)
    (fun x l => sortedInsert_perm SJFCompare x l)
    (fun x l => sortedInsert_perm PriorityCompare x l)
    s.L2 (s.L1.foldl (fun acc t => sortedInsert SJFCompare (age t) acc) []) []).1
  refine hroute.trans ?_
  have hbase : (s.L1.foldl (fun acc t => sortedInsert SJFCompare (age t) acc)
      []).Perm (s.L1.map age) := by
    simpa using foldl_sortedInsert_perm SJFCompare age s.L1 []
  exact hbase.append_left _

theorem aging_L2_perm (age : Thread → Thread) (s : SchedState) :
    ((Scheduler.aging age s).L2).Perm
      ((s.L3.map age).filter (fun x => decide (50 ≤ x.priority)) ++
        (s.L2.map age).filter (fun x => ! decide (100 ≤ x.priority))) := by
  have hroute2 := (foldl_route_perm (fun x : Thread => 100 ≤ x.priority) age
    (sortedInsert SJFCompare) (sortedInsert PriorityCompare)
    (fun x l => sortedInsert_perm SJFCompare x l)
    (fun x l => sortedInsert_perm PriorityCompare x l)
    s.L2 (s.L1.foldl (fun acc t => sortedInsert SJFCompare (age t) acc) []) []).2
  have hroute3 := (foldl_route_perm (fun x : Thread => 50 ≤ x.priority) age
    (sortedInsert PriorityCompare) (fun x l => l ++ [x])
    (fun x l => sortedInsert_perm PriorityCompare x l)
    (fun x l => List.perm_append_singleton x l)
    s.L3
    ((s.L2.foldl
      (fun acc t =>
        if 100 ≤ (age t).priority then
          (sortedInsert SJFCompare (age t) acc.1, acc.2)
        else
          (acc.1, sortedInsert PriorityCompare (age t) acc.2))
      (s.L1.foldl (fun acc t => sortedInsert SJFCompare (age t) acc) [], [])).2)
    []).1
  refine hroute3.trans ?_
  have h2 : ((s.L2.foldl
      (fun acc t =>
        if 100 ≤ (age t).priority then
          (sortedInsert SJFCompare (age t) acc.1, acc.2)
        else
          (acc.1, sortedInsert PriorityCompare (age t) acc.2))
      (s.L1.foldl (fun acc t => sortedInsert SJFCompare (age t) acc) [],
        [])).2).Perm
      ((s.L2.map age).filter (fun x => ! decide (100 ≤ x.priority))) := by
    simpa using hroute2
  exact h2.append_left _

theorem aging_L3_perm (age : Thread → Thread) (s : SchedState) :
    ((Scheduler.aging age s).L3).Perm
      ((s.L3.map age).filter (fun x => ! decide (50 ≤ x.priority))) := by
  have hroute3 := (foldl_route_perm (fun x : Thread => 50 ≤ x.priority) age
    (sortedInsert PriorityCompare) (fun x l => l ++ [x])
    (fun x l => sortedInsert_perm PriorityCompare x l)
    (fun x l => List.perm_append_singleton x l)
    s.L3
    ((s.L2.foldl
      (fun acc t =>
        if 100 ≤ (age t).priority then
          (sortedInsert SJFCompare (age t) acc.1, acc.2)
        else
          (acc.1, sortedInsert PriorityCompare (age t) acc.2))
      (s.L1.foldl (fun acc t => sortedInsert SJFCompare (age t) acc) [], [])).2)
    []).2
  simpa using hroute3

/-! ### Concrete threads and states for the scenario theorems -/

/-- Tier-1 unit with estimated total time 10 and consumed time 9
(remaining work 1). -/
def thrA : Thread := ⟨1, 120, 9, 10, ThreadStatus.READY, 0⟩

/-- Running unit with estimated total time 5 and consumed time 0
(remaining work 5). -/
def thrRun : Thread := ⟨2, 120, 0, 5, ThreadStatus.RUNNING, 0⟩

/-- Two Tier-1 units with equal remaining work. -/
def thrB1 : Thread := ⟨3, 120, 0, 5, ThreadStatus.READY, 0⟩

def thrB2 : Thread := ⟨4, 120, 0, 5, ThreadStatus.READY, 0⟩

/-- Blocked unit with inadmissible priority 200. -/
def thrHi : Thread := ⟨5, 200, 0, 5, ThreadStatus.BLOCKED, 0⟩

def sPre : SchedState := ⟨[thrA], [], [], none, thrRun⟩

def sTie : SchedState := ⟨[thrB1, thrB2], [], [], none, thrRun⟩

def sIdle : SchedState := ⟨[], [], [], none, thrRun⟩

/-! ### C3 — admission bands -/

/-- C3: admission routes by priority band.  A unit with priority in
[100,149] is inserted into Tier 1 in SJF order, one with priority in
[50,99] into Tier 2 in priority order, one with priority in [0,49] is
appended to Tier 3 — in each case the two other tiers are untouched —
and any other priority makes admission fail fatally with all three
tiers unchanged. -/
theorem ReadyToRun_band_spec (t : Thread) (s : SchedState) :
    (100 ≤ t.priority ∧ t.priority ≤ 149 →
      Scheduler.ReadyToRun t s = Except.ok { s with
        L1 := sortedInsert SJFCompare { t with status := ThreadStatus.READY } s.L1 }) ∧
    (50 ≤ t.priority ∧ t.priority ≤ 99 →
      Scheduler.ReadyToRun t s = Except.ok { s with
        L2 := sortedInsert PriorityCompare { t with status := ThreadStatus.READY } s.L2 }) ∧
    (0 ≤ t.priority ∧ t.priority ≤ 49 →
      Scheduler.ReadyToRun t s = Except.ok { s with
        L3 := s.L3 ++ [{ t with status := ThreadStatus.READY }] }) ∧
    (t.priority < 0 ∨ 149 < t.priority →
      Scheduler.ReadyToRun t s =
        Except.error ({ t with status := ThreadStatus.READY }, s)) := by
  simp only [Scheduler.ReadyToRun]
  refine ⟨?_, ?_, ?_, ?_⟩ <;> intro h <;> split_ifs with h1 h2 h3 <;>
    first | rfl | (exfalso; omega)

/-- Witness for C3: a unit of priority 120 admitted to the empty
scheduler lands in Tier 1. -/
theorem ReadyToRun_band_spec_witness :
    Scheduler.ReadyToRun thrB1 sIdle = Except.ok { sIdle with
      L1 := sortedInsert SJFCompare { thrB1 with status := ThreadStatus.READY }
        sIdle.L1 } :=
  (ReadyToRun_band_spec thrB1 sIdle).1 (by decide)

/-! ### C8 — fatal admission happens after the status write -/

/-- C8 counterexample: admission of a BLOCKED unit with priority 200
aborts, but at the abort point the status of the unit has already been
set to READY; the unit is not unmodified. -/
theorem ReadyToRun_status_mutated_before_abort :
    Scheduler.ReadyToRun thrHi sIdle =
      Except.error ({ thrHi with status := ThreadStatus.READY }, sIdle) ∧
    { thrHi with status := ThreadStatus.READY } ≠ thrHi := by
  constructor
  · rfl
  · decide

/-- C8 amended: admission with a priority outside [0,149] fails fatally
and no tier has been mutated at the abort point, but the status field of
the admitted unit has already been set to READY. -/
theorem ReadyToRun_fatal_spec (t : Thread) (s : SchedState)
    (h : t.priority < 0 ∨ 149 < t.priority) :
    Scheduler.ReadyToRun t s =
      Except.error ({ t with status := ThreadStatus.READY }, s) := by
  simp only [Scheduler.ReadyToRun]
  split_ifs with h1 h2 h3 <;> first | rfl | (exfalso; omega)

/-- Witness for the amended C8. -/
theorem ReadyToRun_fatal_spec_witness :
    (thrHi.priority < 0 ∨ 149 < thrHi.priority) ∧
    Scheduler.ReadyToRun thrHi sPre =
      Except.error ({ thrHi with status := ThreadStatus.READY }, sPre) :=
  ⟨by decide, ReadyToRun_fatal_spec thrHi sPre (by decide)⟩

/-! ### C4 — selection precedence -/

/-- C4: selection removes and returns the front of Tier 1 when it is
non-empty, else the front of Tier 2, else the front of Tier 3, and
yields the explicit no-unit result with the state unchanged when all
three tiers are empty; any returned unit comes from the first non-empty
tier. -/
theorem FindNextToRun_precedence_spec (s : SchedState) :
    (∀ t r, s.L1 = t :: r →
      Scheduler.FindNextToRun s = (some t, { s with L1 := r })) ∧
    (∀ t r, s.L1 = [] → s.L2 = t :: r →
      Scheduler.FindNextToRun s = (some t, { s with L2 := r })) ∧
    (∀ t r, s.L1 = [] → s.L2 = [] → s.L3 = t :: r →
      Scheduler.FindNextToRun s = (some t, { s with L3 := r })) ∧
    (s.L1 = [] → s.L2 = [] → s.L3 = [] →
      Scheduler.FindNextToRun s = (none, s)) ∧
    (∀ t, (Scheduler.FindNextToRun s).1 = some t →
      t ∈ s.L1 ∨ (s.L1 = [] ∧ t ∈ s.L2) ∨
        (s.L1 = [] ∧ s.L2 = [] ∧ t ∈ s.L3)) := by
  obtain ⟨l1, l2, l3, d, c⟩ := s
  refine ⟨?_, ?_, ?_, ?_, ?_⟩
  · rintro t r rfl; rfl
  · rintro t r rfl rfl; rfl
  · rintro t r rfl rfl rfl; rfl
  · rintro rfl rfl rfl; rfl
  · intro t h
    cases l1 with
    | cons a r =>
      left
      simp only [Scheduler.FindNextToRun] at h
      simp [← Option.some.injEq .. |>.mp h]
    | nil =>
      cases l2 with
      | cons a r =>
        right; left
        refine ⟨rfl, ?_⟩
        simp only [Scheduler.FindNextToRun] at h
        simp [← Option.some.injEq .. |>.mp h]
      | nil =>
        cases l3 with
        | cons a r =>
          right; right
          refine ⟨rfl, rfl, ?_⟩
          simp only [Scheduler.FindNextToRun] at h
          simp [← Option.some.injEq .. |>.mp h]
        | nil =>
          exact absurd h (by simp [Scheduler.FindNextToRun])

/-- Witness for C4: with Tier 1 holding one unit, selection removes and
returns it. -/
theorem FindNextToRun_precedence_spec_witness :
    Scheduler.FindNextToRun sPre = (some thrA, { sPre with L1 := [] }) :=
  (FindNextToRun_precedence_spec sPre).1 thrA [] rfl

/-! ### C5 — destruction discipline -/

/-- C5: a finishing dispatch with an empty pending-destruction slot
stages the current unit there; a finishing dispatch with the slot
already occupied fails fatally; after a finishing dispatch followed by
a destruction check the slot is empty; and a destruction check on an
empty slot changes no state. -/
theorem destruction_discipline_spec (s : SchedState) (n : Thread) (now : Int) :
    (s.toBeDestroyed = none →
      Scheduler.Run_dispatch s n true now = Except.ok { s with
        toBeDestroyed := some s.currentThread,
        currentThread :=
          { n with status := ThreadStatus.RUNNING, startTime := now } }) ∧
    (∀ t0, s.toBeDestroyed = some t0 →
      Scheduler.Run_dispatch s n true now = Except.error s) ∧
    (∀ s1, Scheduler.Run_dispatch s n true now = Except.ok s1 →
      (Scheduler.CheckToBeDestroyed s1).toBeDestroyed = none) ∧
    (s.toBeDestroyed = none → Scheduler.CheckToBeDestroyed s = s) := by
  obtain ⟨l1, l2, l3, d, c⟩ := s
  refine ⟨?_, ?_, ?_, ?_⟩
  · rintro rfl; rfl
  · rintro t0 rfl; rfl
  · intro s1 h
    cases d with
    | some t0 => exact absurd h (by simp [Scheduler.Run_dispatch])
    | none =>
      simp only [Scheduler.Run_dispatch] at h
      cases h
      rfl
  · rintro rfl; rfl

/-- Witness for C5, at a state with an empty slot. -/
theorem destruction_discipline_spec_witness :
    Scheduler.Run_dispatch sPre thrB1 true 0 = Except.ok { sPre with
      toBeDestroyed := some sPre.currentThread,
      currentThread :=
        { thrB1 with status := ThreadStatus.RUNNING, startTime := 0 } } ∧
    Scheduler.CheckToBeDestroyed sPre = sPre :=
  ⟨(destruction_discipline_spec sPre thrB1 0).1 rfl,
    (destruction_discipline_spec sPre thrB1 0).2.2.2 rfl⟩

/-! ### C10 — dispatch never touches the tiers -/

/-- C10: a dispatch, whether it completes or aborts on the slot
assertion, leaves the contents and order of all three tiers exactly
unchanged. -/
theorem Run_tiers_frame_spec (s : SchedState) (n : Thread) (b : Bool)
    (now : Int) :
    (exceptState (Scheduler.Run s n b now)).L1 = s.L1 ∧
    (exceptState (Scheduler.Run s n b now)).L2 = s.L2 ∧
    (exceptState (Scheduler.Run s n b now)).L3 = s.L3 := by
  obtain ⟨l1, l2, l3, d, c⟩ := s
  cases b <;> cases d <;>
    simp [Scheduler.Run, Scheduler.Run_dispatch, Scheduler.CheckToBeDestroyed,
      exceptState, Except.map]

/-! ### C1 — the preemption signal -/

/-- C1 counterexample: a state in which the Tier-1 head has strictly
smaller remaining work than the running unit (1 against 5) yet the
preemption check signals false, because the code compares the raw
estimated-total-time values (10 against 5). -/
theorem checkPreemptive_remaining_work_counterexample :
    sPre.L1 = [thrA] ∧
    remainingWork thrA < remainingWork sPre.currentThread ∧
    (Scheduler.checkPreemptive sPre).1 = false := by
  refine ⟨rfl, by decide, rfl⟩

/-- C1 amended: the preemption check returns true if and only if Tier 1
is non-empty and the estimated-total-time value (approximate burst
time) of the head of Tier 1 — not its remaining work — is strictly
less than the estimated-total-time value of the currently executing
unit. -/
theorem checkPreemptive_signal_iff (s : SchedState) :
    (Scheduler.checkPreemptive s).1 = true ↔
      ∃ first rest, s.L1 = first :: rest ∧
        first.approxBurstTime < s.currentThread.approxBurstTime := by
  obtain ⟨l1, l2, l3, d, c⟩ := s
  cases l1 with
  | nil => simp [Scheduler.checkPreemptive]
  | cons a r =>
    by_cases h : a.approxBurstTime < c.approxBurstTime <;>
      simp [Scheduler.checkPreemptive, h]

/-! ### C6 — the preemption check as a frame -/

/-- C6 counterexample: with two Tier-1 units of equal remaining work,
the remove-and-reinsert peek of the preemption check moves the head
behind its tied peer, so the order of Tier 1 is not preserved. -/
theorem checkPreemptive_reorders_ties :
    (Scheduler.checkPreemptive sTie).2.L1 ≠ sTie.L1 := by
  decide

/-- C6 amended: the preemption check preserves the membership and the
count of every tier — the resulting Tier 1 is a permutation of the
original, Tiers 2 and 3, the pending-destruction slot and the current
thread are untouched, and no unit is modified — but it does not always
preserve the order of Tier 1: when the head ties another unit in
remaining work, the head is reinserted behind its tied peers. -/
theorem checkPreemptive_frame_spec (s : SchedState) :
    ((Scheduler.checkPreemptive s).2.L1).Perm s.L1 ∧
    (Scheduler.checkPreemptive s).2.L2 = s.L2 ∧
    (Scheduler.checkPreemptive s).2.L3 = s.L3 ∧
    (Scheduler.checkPreemptive s).2.toBeDestroyed = s.toBeDestroyed ∧
    (Scheduler.checkPreemptive s).2.currentThread = s.currentThread := by
  obtain ⟨l1, l2, l3, d, c⟩ := s
  cases l1 with
  | nil => simp [Scheduler.checkPreemptive]
  | cons a r =>
    by_cases h : a.approxBurstTime < c.approxBurstTime <;>
      simp [Scheduler.checkPreemptive, h, sortedInsert_perm]

/-! ### C2 — aging routes each drained unit by band -/

/-- C2: in an aging pass, every unit drained from Tier 1 is re-admitted
to the rebuilt Tier 1 regardless of its aged priority; a unit drained
from Tier 2 is re-admitted to Tier 1 exactly when its aged priority lies
in [100,149] and otherwise stays in Tier 2; a unit drained from Tier 3
is re-admitted to Tier 2 exactly when its aged priority lies in [50,149]
and otherwise stays in Tier 3.  The rebuilt tiers are characterized up
to permutation, so in particular no Tier-3 unit reaches Tier 1 in a
single pass.  The hypotheses record the data-model invariant that the
external aging mutation keeps priorities at most 149. -/
theorem aging_routing_spec (age : Thread → Thread) (s : SchedState)
    (h2 : ∀ t ∈ s.L2, (age t).priority ≤ 149)
    (h3 : ∀ t ∈ s.L3, (age t).priority ≤ 149) :
    ((Scheduler.aging age s).L1).Perm
      (s.L1.map age ++ (s.L2.map age).filter
        (fun x => decide (100 ≤ x.priority ∧ x.priority ≤ 149))) ∧
    ((Scheduler.aging age s).L2).Perm
      ((s.L2.map age).filter
          (fun x => ! decide (100 ≤ x.priority ∧ x.priority ≤ 149)) ++
        (s.L3.map age).filter
          (fun x => decide (50 ≤ x.priority ∧ x.priority ≤ 149))) ∧
    ((Scheduler.aging age s).L3).Perm
      ((s.L3.map age).filter
        (fun x => ! decide (50 ≤ x.priority ∧ x.priority ≤ 149))) := by
  have key2 : ∀ x ∈ s.L2.map age,
      decide (100 ≤ x.priority) =
        decide (100 ≤ x.priority ∧ x.priority ≤ 149) := by
    intro x hx
    rcases List.mem_map.1 hx with ⟨t, ht, rfl⟩
    have hb := h2 t ht
    apply decide_eq_decide.mpr
    exact ⟨fun hp => ⟨hp, hb⟩, fun hp => hp.1⟩
  have key3 : ∀ x ∈ s.L3.map age,
      decide (50 ≤ x.priority) =
        decide (50 ≤ x.priority ∧ x.priority ≤ 149) := by
    intro x hx
    rcases List.mem_map.1 hx with ⟨t, ht, rfl⟩
    have hb := h3 t ht
    apply decide_eq_decide.mpr
    exact ⟨fun hp => ⟨hp, hb⟩, fun hp => hp.1⟩
  have e100 := List.filter_congr key2
  have e100n : (s.L2.map age).filter (fun x => ! decide (100 ≤ x.priority)) =
      (s.L2.map age).filter
        (fun x => ! decide (100 ≤ x.priority ∧ x.priority ≤ 149)) :=
    List.filter_congr (fun x hx => by rw [key2 x hx])
  have e50 := List.filter_congr key3
  have e50n : (s.L3.map age).filter (fun x => ! decide (50 ≤ x.priority)) =
      (s.L3.map age).filter
        (fun x => ! decide (50 ≤ x.priority ∧ x.priority ≤ 149)) :=
    List.filter_congr (fun x hx => by rw [key3 x hx])
  refine ⟨?_, ?_, ?_⟩
  · have hp := aging_L1_perm age s
    rw [e100] at hp
    exact hp.trans List.perm_append_comm
  · have hp := aging_L2_perm age s
    rw [e50, e100n] at hp
    exact hp.trans List.perm_append_comm
  · have hp := aging_L3_perm age s
    rw [e50n] at hp
    exact hp

/-! ### C9 — aging preserves the population and never demotes -/

/-- C9: an aging pass preserves the total number of units across the
three tiers — no unit is dropped and none is duplicated — and no unit
ends the pass in a tier of lower precedence than the tier it came from:
Tier-1 units stay in Tier 1, Tier-2 units end in Tier 1 or Tier 2, and
Tier-3 units end in Tier 2 or Tier 3. -/
theorem aging_count_and_no_demotion_spec (age : Thread → Thread)
    (s : SchedState) :
    ((Scheduler.aging age s).L1.length + (Scheduler.aging age s).L2.length +
        (Scheduler.aging age s).L3.length =
      s.L1.length + s.L2.length + s.L3.length) ∧
    (∀ t ∈ s.L1, age t ∈ (Scheduler.aging age s).L1) ∧
    (∀ t ∈ s.L2,
      age t ∈ (Scheduler.aging age s).L1 ∨
        age t ∈ (Scheduler.aging age s).L2) ∧
    (∀ t ∈ s.L3,
      age t ∈ (Scheduler.aging age s).L2 ∨
        age t ∈ (Scheduler.aging age s).L3) := by
  have p1 := aging_L1_perm age s
  have p2 := aging_L2_perm age s
  have p3 := aging_L3_perm age s
  refine ⟨?_, ?_, ?_, ?_⟩
  · have ln1 := p1.length_eq
    have ln2 := p2.length_eq
    have ln3 := p3.length_eq
    have hsplit2 := (List.filter_append_perm
      (fun x => decide (100 ≤ x.priority)) (s.L2.map age)).length_eq
    have hsplit3 := (List.filter_append_perm
      (fun x => decide (50 ≤ x.priority)) (s.L3.map age)).length_eq
    simp only [List.length_append, List.length_map] at ln1 ln2 ln3 hsplit2 hsplit3
    omega
  · intro t ht
    exact p1.mem_iff.mpr
      (List.mem_append.mpr (Or.inr (List.mem_map_of_mem age ht)))
  · intro t ht
    by_cases hp : 100 ≤ (age t).priority
    · exact Or.inl (p1.mem_iff.mpr (List.mem_append.mpr (Or.inl
        (List.mem_filter.mpr ⟨List.mem_map_of_mem age ht, by simpa using hp⟩))))
    · exact Or.inr (p2.mem_iff.mpr (List.mem_append.mpr (Or.inr
        (List.mem_filter.mpr ⟨List.mem_map_of_mem age ht, by simpa using hp⟩))))
  · intro t ht
    by_cases hp : 50 ≤ (age t).priority
    · exact Or.inl (p2.mem_iff.mpr (List.mem_append.mpr (Or.inl
        (List.mem_filter.mpr ⟨List.mem_map_of_mem age ht, by simpa using hp⟩))))
    · exact Or.inr (p3.mem_iff.mpr
        (List.mem_filter.mpr ⟨List.mem_map_of_mem age ht, by simpa using hp⟩))

/-! ### Concrete aging scenario: priorities grow by 10 -/

def w120 : Thread := ⟨6, 120, 2, 10, ThreadStatus.READY, 0⟩

def w60 : Thread := ⟨7, 60, 0, 5, ThreadStatus.READY, 0⟩

def w45 : Thread := ⟨8, 45, 0, 5, ThreadStatus.READY, 0⟩

/-- A concrete aging mutation: the priority grows by 10. -/
def ageW : Thread → Thread := fun t => { t with priority := t.priority + 10 }

def sAge : SchedState := ⟨[w120], [w60], [w45], none, thrRun⟩

/-- Witness for C2. -/
theorem aging_routing_spec_witness :
    (∀ t ∈ sAge.L2, (ageW t).priority ≤ 149) ∧
    (∀ t ∈ sAge.L3, (ageW t).priority ≤ 149) ∧
    ((Scheduler.aging ageW sAge).L1).Perm
      (sAge.L1.map ageW ++ (sAge.L2.map ageW).filter
        (fun x => decide (100 ≤ x.priority ∧ x.priority ≤ 149))) :=
  ⟨by decide, by decide,
    (aging_routing_spec ageW sAge (by decide) (by decide)).1⟩

/-- Witness for C9. -/
theorem aging_count_and_no_demotion_spec_witness :
    (w45 ∈ sAge.L3) ∧
    ((Scheduler.aging ageW sAge).L1.length +
        (Scheduler.aging ageW sAge).L2.length +
        (Scheduler.aging ageW sAge).L3.length =
      sAge.L1.length + sAge.L2.length + sAge.L3.length) ∧
    (ageW w45 ∈ (Scheduler.aging ageW sAge).L2 ∨
      ageW w45 ∈ (Scheduler.aging ageW sAge).L3) :=
  ⟨by decide, (aging_count_and_no_demotion_spec ageW sAge).1,
    (aging_count_and_no_demotion_spec ageW sAge).2.2.2 w45 (by decide)⟩

/-! ### C7 — dequeue order within the ordered tiers -/

/-- Admission-tagged elements: each admitted unit paired with its
admission sequence number. -/
def tagFrom {α : Type} (n : Nat) : List α → List (Nat × α)
  | [] => []
  | t :: ts => (n, t) :: tagFrom (n + 1) ts

/-- The comparison of the source lifted to tagged elements: the tag
plays no role in the comparison, exactly as in the physical list. -/
def taggedCmp {α : Type} (cmp : α → α → Int) (a b : Nat × α) : Int :=
  cmp a.2 b.2

/-- The queue obtained by admitting the given elements in order, each
through SortedList::Insert. -/
def buildSorted {α : Type} (cmp : α → α → Int) (ts : List α) : List α :=
  ts.foldl (fun acc t => sortedInsert cmp t acc) []

/-- Dequeue-before relation induced by a key: strictly smaller key
first, ties resolved by the admission sequence number. -/
def admRel {α : Type} (k : α → Int) (a b : Nat × α) : Prop :=
  k a.2 < k b.2 ∨ (k a.2 = k b.2 ∧ a.1 < b.1)

theorem tagFrom_map_snd {α : Type} (n : Nat) :
    ∀ ts : List α, (tagFrom n ts).map Prod.snd = ts
  | [] => rfl
  | t :: ts => by
    simp only [tagFrom, List.map_cons]
    rw [tagFrom_map_snd (n + 1) ts]

theorem mem_tagFrom_le {α : Type} :
    ∀ (n : Nat) (ts : List α) (p : Nat × α), p ∈ tagFrom n ts → n ≤ p.1
  | n, [], p, h => absurd h (by simp [tagFrom])
  | n, t :: ts, p, h => by
    rcases List.mem_cons.1 h with rfl | h2
    · exact Nat.le_refl n
    · exact Nat.le_of_succ_le (mem_tagFrom_le (n + 1) ts p h2)

theorem pairwise_tagFrom {α : Type} :
    ∀ (n : Nat) (ts : List α),
      (tagFrom n ts).Pairwise (fun a b => a.1 < b.1)
  | _, [] => List.Pairwise.nil
  | n, t :: ts => by
    refine List.pairwise_cons.2 ⟨?_, pairwise_tagFrom (n + 1) ts⟩
    intro b hb
    exact Nat.lt_of_succ_le (mem_tagFrom_le (n + 1) ts b hb)

theorem SJFCompare_lt_iff (a b : Thread) :
    SJFCompare a b < 0 ↔ remainingWork a < remainingWork b := by
  unfold SJFCompare remainingWork
  split_ifs with h1 h2 <;> constructor <;> intro h <;> omega

theorem PriorityCompare_lt_iff (a b : Thread) :
    PriorityCompare a b < 0 ↔ a.priority < b.priority := by
  unfold PriorityCompare
  split_ifs with h1 h2 <;> constructor <;> intro h <;> omega

theorem admRel_asymm {α : Type} (k : α → Int) (a b : Nat × α)
    (h1 : admRel k a b) (h2 : admRel k b a) : False := by
  unfold admRel at h1 h2
  rcases h1 with h | ⟨he, hl⟩ <;> rcases h2 with h2 | ⟨he2, hl2⟩ <;> omega

theorem sortedInsert_cons {α : Type} (cmp : α → α → Int) (x y : α)
    (ys : List α) :
    sortedInsert cmp x (y :: ys) =
      if cmp x y < 0 then x :: y :: ys else y :: sortedInsert cmp x ys :=
  rfl

section StableOrder

variable {α : Type} (k : α → Int) (cmp : α → α → Int)

theorem pairwise_sortedInsert_tagged
    (hcmp : ∀ a b, cmp a b < 0 ↔ k a < k b) (x : Nat × α) :
    ∀ l : List (Nat × α), l.Pairwise (admRel k) → (∀ y ∈ l, y.1 < x.1) →
      (sortedInsert (taggedCmp cmp) x l).Pairwise (admRel k) := by
  intro l
  induction l with
  | nil =>
    intro _ _
    simp [sortedInsert]
  | cons y ys ih =>
    intro hp htag
    have hyrest := (List.pairwise_cons.1 hp).1
    have hys := (List.pairwise_cons.1 hp).2
    by_cases hlt : taggedCmp cmp x y < 0
    · unfold sortedInsert
      rw [if_pos hlt]
      have hxy : k x.2 < k y.2 := (hcmp x.2 y.2).1 hlt
      refine List.pairwise_cons.2 ⟨?_, hp⟩
      intro z hz
      rcases List.mem_cons.1 hz with rfl | hz2
      · exact Or.inl hxy
      · refine Or.inl ?_
        rcases hyrest z hz2 with h | ⟨he, _⟩ <;> omega
    · unfold sortedInsert
      rw [if_neg hlt]
      have hyx : k y.2 ≤ k x.2 :=
        le_of_not_lt (fun hc => hlt ((hcmp x.2 y.2).2 hc))
      refine List.pairwise_cons.2
        ⟨?_, ih hys (fun z hz => htag z (List.mem_cons_of_mem y hz))⟩
      intro z hz
      rcases (mem_sortedInsert (taggedCmp cmp) x z ys).1 hz with hz1 | hz2
      · rw [hz1]
        have hy1 : y.1 < x.1 := htag y (List.mem_cons_self y ys)
        rcases lt_or_eq_of_le hyx with h | h
        · exact Or.inl h
        · exact Or.inr ⟨h, hy1⟩
      · exact hyrest z hz2

theorem pairwise_foldl_insert_tagged
    (hcmp : ∀ a b, cmp a b < 0 ↔ k a < k b) :
    ∀ (ps : List (Nat × α)) (acc : List (Nat × α)),
      acc.Pairwise (admRel k) →
      (∀ a ∈ acc, ∀ p ∈ ps, a.1 < p.1) →
      ps.Pairwise (fun a b => a.1 < b.1) →
      (ps.foldl (fun ac t => sortedInsert (taggedCmp cmp) t ac) acc).Pairwise
        (admRel k) := by
  intro ps
  induction ps with
  | nil =>
    intro acc hacc _ _
    simpa using hacc
  | cons p ps ih =>
    intro acc hacc htag hps
    simp only [List.foldl_cons]
    apply ih
    · exact pairwise_sortedInsert_tagged k cmp hcmp p acc hacc
        (fun a ha => htag a ha p (List.mem_cons_self p ps))
    · intro a ha q hq
      rcases (mem_sortedInsert (taggedCmp cmp) p a acc).1 ha with ha1 | ha2
      · subst ha1
        exact (List.pairwise_cons.1 hps).1 q hq
      · exact htag a ha2 q (List.mem_cons_of_mem p hq)
    · exact (List.pairwise_cons.1 hps).2

theorem pairwise_buildSorted_tagged
    (hcmp : ∀ a b, cmp a b < 0 ↔ k a < k b) (ts : List α) :
    (buildSorted (taggedCmp cmp) (tagFrom 0 ts)).Pairwise (admRel k) := by
  unfold buildSorted
  apply pairwise_foldl_insert_tagged k cmp hcmp
  · exact List.Pairwise.nil
  · intro a ha
    exact absurd ha (by simp)
  · exact pairwise_tagFrom 0 ts

end StableOrder

theorem pair_sublist_of_mem {β : Type} {l : List β} {a b : β}
    (ha : a ∈ l) (hb : b ∈ l) (hab : a ≠ b) :
    [a, b].Sublist l ∨ [b, a].Sublist l := by
  induction l with
  | nil => cases ha
  | cons x l ih =>
    rcases List.mem_cons.1 ha with rfl | ha2
    · have hb2 : b ∈ l := by
        rcases List.mem_cons.1 hb with h | h
        · exact absurd h.symm hab
        · exact h
      exact Or.inl (List.Sublist.cons₂ a (List.singleton_sublist.mpr hb2))
    · rcases List.mem_cons.1 hb with rfl | hb2
      · exact Or.inr (List.Sublist.cons₂ b (List.singleton_sublist.mpr ha2))
      · rcases ih ha2 hb2 with h | h
        · exact Or.inl (List.Sublist.cons x h)
        · exact Or.inr (List.Sublist.cons x h)

theorem pairwise_pair_sublist_iff {β : Type} {R : β → β → Prop}
    (hasym : ∀ x y, R x y → R y x → False) {l : List β}
    (hl : l.Pairwise R) {a b : β} (ha : a ∈ l) (hb : b ∈ l) (hab : a ≠ b) :
    [a, b].Sublist l ↔ R a b := by
  constructor
  · intro hs
    have hp := hl.sublist hs
    exact (List.pairwise_cons.1 hp).1 b (List.mem_cons_self b [])
  · intro hR
    rcases pair_sublist_of_mem ha hb hab with h | h
    · exact h
    · exfalso
      have hp := hl.sublist h
      exact hasym b a ((List.pairwise_cons.1 hp).1 a (List.mem_cons_self a [])) hR

theorem mem_foldl_sortedInsert {α : Type} (cmp : α → α → Int) :
    ∀ (ps : List α) (acc : List α) (a : α),
      a ∈ ps.foldl (fun ac t => sortedInsert cmp t ac) acc ↔
        a ∈ ps ∨ a ∈ acc
  | [], acc, a => by simp
  | p :: ps, acc, a => by
    simp only [List.foldl_cons]
    rw [mem_foldl_sortedInsert cmp ps (sortedInsert cmp p acc) a,
      mem_sortedInsert]
    simp only [List.mem_cons]
    tauto

theorem mem_buildSorted {α : Type} (cmp : α → α → Int) (ps : List α)
    (a : α) : a ∈ buildSorted cmp ps ↔ a ∈ ps := by
  unfold buildSorted
  rw [mem_foldl_sortedInsert]
  simp

theorem sortedInsert_tagged_map_snd {α : Type} (cmp : α → α → Int)
    (x : Nat × α) :
    ∀ l : List (Nat × α),
      (sortedInsert (taggedCmp cmp) x l).map Prod.snd =
        sortedInsert cmp x.2 (l.map Prod.snd)
  | [] => rfl
  | y :: ys => by
    rw [List.map_cons, sortedInsert_cons, sortedInsert_cons]
    by_cases h : cmp x.2 y.2 < 0
    · rw [if_pos (show taggedCmp cmp x y < 0 from h), if_pos h]
      rfl
    · rw [if_neg (show ¬ taggedCmp cmp x y < 0 from h), if_neg h,
        List.map_cons, sortedInsert_tagged_map_snd cmp x ys]

theorem foldl_sortedInsert_tagged_map_snd {α : Type} (cmp : α → α → Int) :
    ∀ (ps : List (Nat × α)) (acc : List (Nat × α)),
      (ps.foldl (fun ac t => sortedInsert (taggedCmp cmp) t ac) acc).map
          Prod.snd =
        (ps.map Prod.snd).foldl (fun ac t => sortedInsert cmp t ac)
          (acc.map Prod.snd)
  | [], acc => rfl
  | p :: ps, acc => by
    simp only [List.foldl_cons, List.map_cons]
    rw [foldl_sortedInsert_tagged_map_snd cmp ps
      (sortedInsert (taggedCmp cmp) p acc),
      sortedInsert_tagged_map_snd cmp p acc]

theorem buildSorted_tagged_map_snd {α : Type} (cmp : α → α → Int)
    (ts : List α) :
    (buildSorted (taggedCmp cmp) (tagFrom 0 ts)).map Prod.snd =
      buildSorted cmp ts := by
  unfold buildSorted
  rw [foldl_sortedInsert_tagged_map_snd cmp (tagFrom 0 ts) [],
    tagFrom_map_snd 0 ts]
  rfl

/-- C7: in the queue built by admitting the units of ts in order
through SortedList::Insert with SJFCompare, a tagged unit a dequeues
before b exactly when the remaining work of a is strictly smaller, or
their remaining work ties and a was admitted earlier; likewise with
PriorityCompare and the raw priority value.  Projecting the tags away
recovers precisely the untagged Tier-1 and Tier-2 queues, so the tags
only make the admission order observable. -/
theorem tier_order_stable_spec (ts : List Thread) (a b : Nat × Thread)
    (ha : a ∈ tagFrom 0 ts) (hb : b ∈ tagFrom 0 ts) (hab : a ≠ b) :
    ([a, b].Sublist (buildSorted (taggedCmp SJFCompare) (tagFrom 0 ts)) ↔
      (remainingWork a.2 < remainingWork b.2 ∨
        (remainingWork a.2 = remainingWork b.2 ∧ a.1 < b.1))) ∧
    ([a, b].Sublist (buildSorted (taggedCmp PriorityCompare)
        (tagFrom 0 ts)) ↔
      (a.2.priority < b.2.priority ∨
        (a.2.priority = b.2.priority ∧ a.1 < b.1))) ∧
    (buildSorted (taggedCmp SJFCompare) (tagFrom 0 ts)).map Prod.snd =
      buildSorted SJFCompare ts ∧
    (buildSorted (taggedCmp PriorityCompare) (tagFrom 0 ts)).map Prod.snd =
      buildSorted PriorityCompare ts := by
  have hp1 := pairwise_buildSorted_tagged remainingWork SJFCompare
    SJFCompare_lt_iff ts
  have hp2 := pairwise_buildSorted_tagged (fun t : Thread => t.priority)
    PriorityCompare PriorityCompare_lt_iff ts
  have ha1 := (mem_buildSorted (taggedCmp SJFCompare) (tagFrom 0 ts) a).2 ha
  have hb1 := (mem_buildSorted (taggedCmp SJFCompare) (tagFrom 0 ts) b).2 hb
  have ha2 := (mem_buildSorted (taggedCmp PriorityCompare)
    (tagFrom 0 ts) a).2 ha
  have hb2 := (mem_buildSorted (taggedCmp PriorityCompare)
    (tagFrom 0 ts) b).2 hb
  refine ⟨?_, ?_, buildSorted_tagged_map_snd SJFCompare ts,
    buildSorted_tagged_map_snd PriorityCompare ts⟩
  · exact pairwise_pair_sublist_iff (admRel_asymm remainingWork) hp1
      ha1 hb1 hab
  · exact pairwise_pair_sublist_iff
      (admRel_asymm (fun t : Thread => t.priority)) hp2 ha2 hb2 hab

/-- Witness for C7: two units with equal remaining work and equal
priority, admitted one after the other; the earlier-admitted one
dequeues first by the tie-break. -/
theorem tier_order_stable_spec_witness :
    ((0, thrB1) ∈ tagFrom 0 [thrB1, thrB2]) ∧
    ((1, thrB2) ∈ tagFrom 0 [thrB1, thrB2]) ∧
    (((0 : Nat), thrB1) ≠ ((1 : Nat), thrB2)) ∧
    ([((0 : Nat), thrB1), (1, thrB2)].Sublist
        (buildSorted (taggedCmp SJFCompare) (tagFrom 0 [thrB1, thrB2])) ↔
      (remainingWork thrB1 < remainingWork thrB2 ∨
        (remainingWork thrB1 = remainingWork thrB2 ∧ (0 : Nat) < 1))) :=
  ⟨by decide, by decide, by decide,
    (tier_order_stable_spec [thrB1, thrB2] (0, thrB1) (1, thrB2)
      (by decide) (by decide) (by decide)).1⟩
